import Mathlib

/-
  Verification of the numerical core of the quantum-tutor single-qubit
  simulator (QuantumTutorMVP). The JavaScript core is embedded shallowly
  over the real numbers: a complex number is a pair of reals, a state
  vector is a pair of complex amplitudes, and the floating-point
  operations of the source (Math.sqrt, Math.acos, Math.atan2, Math.cos,
  Math.sin) are read in exact real arithmetic (Real.sqrt, Real.arccos,
  Complex.arg, Real.cos, Real.sin).

  One divergence from JavaScript numerics is unavoidable: in Lean,
  division of a real by zero yields 0, while in JavaScript 1/0 is
  Infinity and 0 * Infinity is NaN. The only place this matters is
  normalization of the zero vector (reachable through the defective
  Hadamard entry of the gate table); under either reading the result of
  normalizing the zero vector is not a unit vector, which is what the
  affected theorems state.
-/

namespace QuantumTutor

/-- Complex number as a pair of real scalars, as built by the source helper
`C(re, im = 0)`. -/
@[ext]
structure Cplx where
  re : ℝ
  im : ℝ

/-- Source: `const C = (re, im = 0) => ({ re, im })`. -/
def C (re im : ℝ) : Cplx := ⟨re, im⟩

/-- Source: `const add = (a, b) => C(a.re + b.re, a.im + b.im)`. -/
def add (a b : Cplx) : Cplx := C (a.re + b.re) (a.im + b.im)

/-- Source: `const sub = (a, b) => C(a.re - b.re, a.im - b.im)`. -/
def sub (a b : Cplx) : Cplx := C (a.re - b.re) (a.im - b.im)

/-- Source: `const mul = (a, b) => C(a.re*b.re - a.im*b.im, a.re*b.im + a.im*b.re)`. -/
def mul (a b : Cplx) : Cplx :=
  C (a.re * b.re - a.im * b.im) (a.re * b.im + a.im * b.re)

/-- Source: `const scale = (a, k) => C(a.re * k, a.im * k)`. -/
def scale (a : Cplx) (k : ℝ) : Cplx := C (a.re * k) (a.im * k)

/-- Source: `const conj = (a) => C(a.re, -a.im)`. -/
def conj (a : Cplx) : Cplx := C a.re (-a.im)

/-- Source: `const abs2 = (a) => a.re * a.re + a.im * a.im`. -/
def abs2 (a : Cplx) : ℝ := a.re * a.re + a.im * a.im

/-- A length-2 state vector of complex amplitudes, as used throughout the
source (`[C(..), C(..)]`). -/
abbrev Qstate := Cplx × Cplx

/-- A 2x2 matrix of complex numbers, row-major as in the source
(`[[m00, m01], [m10, m11]]`). -/
abbrev Mat2 := (Cplx × Cplx) × (Cplx × Cplx)

/-- Source: `const dot = (v1, v2) => v1.reduce((acc, x, i) => add(acc, mul(conj(x), v2[i])), C(0, 0))`. -/
def dot (v1 v2 : Qstate) : Cplx :=
  add (add (C 0 0) (mul (conj v1.1) v2.1)) (mul (conj v1.2) v2.2)

/-- Source `matMul`. The source guards each entry with a truthiness test
(`m[0][0] ? mul(m[0][0], v[0]) : C(0,0)`); every matrix entry built by `C`
is a JavaScript object and hence truthy, and the Lean matrices are total,
so the guard always takes the multiply branch. -/
def matMul (m : Mat2) (v : Qstate) : Qstate :=
  (add (mul m.1.1 v.1) (mul m.1.2 v.2),
   add (mul m.2.1 v.1) (mul m.2.2 v.2))

/-- Source `norm`: `s = Math.sqrt(abs2(v[0]) + abs2(v[1]))`, then each
component is scaled by `1 / s` (the local `s` is inlined here). -/
noncomputable def norm (v : Qstate) : Qstate :=
  (scale v.1 (1 / Real.sqrt (abs2 v.1 + abs2 v.2)),
   scale v.2 (1 / Real.sqrt (abs2 v.1 + abs2 v.2)))

/-- Sum of squared magnitudes of the two amplitudes (the quantity whose
value 1 is the unit-norm invariant of the spec). -/
def normSq (v : Qstate) : ℝ := abs2 v.1 + abs2 v.2

/-- A gate table entry: name, 2x2 matrix, description. -/
structure Gate where
  name : String
  matrix : Mat2
  description : String

/-- Gate `I` from the source table. -/
def gateI : Gate :=
  ⟨"I", ((C 1 0, C 0 0), (C 0 0, C 1 0)), "Identity - does nothing"⟩

/-- Gate `X` from the source table. -/
def gateX : Gate :=
  ⟨"X", ((C 0 0, C 1 0), (C 1 0, C 0 0)), "Pauli-X (bit-flip)"⟩

/-- Gate `Z` from the source table. -/
def gateZ : Gate :=
  ⟨"Z", ((C 1 0, C 0 0), (C 0 0, C (-1) 0)), "Pauli-Z (phase flip)"⟩

/-- Gate `H` from the source table, exactly as written there:
`[[C(1/Math.sqrt(2)), C(0)], [C(1/Math.sqrt(2)), C(0)]]` — note the zero
right column (the bottom-right entry is 0, not the textbook -1/√2). -/
noncomputable def gateH : Gate :=
  ⟨"H", ((C (1 / Real.sqrt 2) 0, C 0 0), (C (1 / Real.sqrt 2) 0, C 0 0)),
   "Hadamard - makes superposition"⟩

/-- Gate `S` from the source table. -/
def gateS : Gate :=
  ⟨"S", ((C 1 0, C 0 0), (C 0 0, C 0 1)), "Phase gate S (90°)"⟩

/-- Gate `T` from the source table:
`[[C(1), C(0)], [C(0), C(Math.cos(Math.PI/4), Math.sin(Math.PI/4))]]`. -/
noncomputable def gateT : Gate :=
  ⟨"T", ((C 1 0, C 0 0),
         (C 0 0, C (Real.cos (Real.pi / 4)) (Real.sin (Real.pi / 4)))),
   "T gate (45°)"⟩

/-- The own properties of the source `GATES` object literal, as a lookup
from gate name to gate: `some` for the six keys, `none` otherwise. Note
that JavaScript property access `GATES[gname]` does more than this: when
the own-property lookup misses it walks the prototype chain and can find
an inherited member of `Object.prototype`; that full access semantics is
modelled by `GATES_access` below. The claims that range over the gate
table use only the six keys, where the two models agree. -/
noncomputable def GATES (g : String) : Option Gate :=
  if g = "I" then some gateI
  else if g = "X" then some gateX
  else if g = "Z" then some gateZ
  else if g = "H" then some gateH
  else if g = "S" then some gateS
  else if g = "T" then some gateT
  else none

/-- The initial basis-0 state: `const zero = [C(1,0), C(0,0)]`. -/
def zero : Qstate := (C 1 0, C 0 0)

/-- The basis-1 state: `const one = [C(0,0), C(1,0)]`. -/
def one : Qstate := (C 0 0, C 1 0)

/-- Source `applyGateName(gname, st)` under own-property lookup: if the
table lookup misses return the state unchanged, otherwise multiply the
matrix into the state and normalize. This total function is the behavior
of the source for every name on which the source does not throw; the
JavaScript-faithful fallible version, covering names that resolve to
inherited `Object.prototype` members, is `applyGateNameJs` below. -/
noncomputable def applyGateName (gname : String) (st : Qstate) : Qstate :=
  match GATES gname with
  | none => st
  | some gate => norm (matMul gate.matrix st)

/-- The loop body of the source `stepCircuit`: walk the circuit threading
the state, recording `{ gate: g, state: st }` after each gate. -/
noncomputable def stepCircuitAux (st : Qstate) : List String → List (String × Qstate)
  | [] => []
  | g :: gs => (g, applyGateName g st) :: stepCircuitAux (applyGateName g st) gs

/-- Source `stepCircuit()`: rebuild the history from the basis-0 state,
then set the state to the last history entry's state when the history is
nonempty, and to basis 0 otherwise. Returns (history, state). -/
noncomputable def stepCircuit (circuit : List String) :
    List (String × Qstate) × Qstate :=
  match (stepCircuitAux zero circuit).getLast? with
  | some entry => (stepCircuitAux zero circuit, entry.2)
  | none => (stepCircuitAux zero circuit, zero)

/-- The React component's session state: current state vector, circuit,
history, and measurement outcome (null — `none` — before any measurement). -/
structure Session where
  state : Qstate
  circuit : List String
  history : List (String × Qstate)
  measurement : Option ℕ

/-- The loop of the source `runStep(index)`:
`for(let i=0; i<=index && i<circuit.length; i++) st = applyGateName(circuit[i], st)`,
rendered structurally (the counter `i` runs while it is both at most
`index` and below the circuit length). -/
noncomputable def runTo : List String → ℕ → Qstate → Qstate
  | [], _, st => st
  | g :: _, 0, st => applyGateName g st
  | g :: gs, n + 1, st => runTo gs n (applyGateName g st)

/-- Source `runStep(index)`: replay gates 0 through `index` (bounded by
the circuit length) from basis 0 and store the result as the current
state; circuit, history and measurement are untouched. -/
noncomputable def runStep (s : Session) (index : ℕ) : Session :=
  ⟨runTo s.circuit index zero, s.circuit, s.history, s.measurement⟩

/-- Source `measure()`, with the `Math.random()` sample `r` passed in:
`p0 = abs2(state[0])`; outcome 0 if `r < p0`, else 1; record the outcome
and collapse the state to the matching basis vector. -/
noncomputable def measure (s : Session) (r : ℝ) : Session :=
  ⟨if (if r < abs2 s.state.1 then (0 : ℕ) else 1) = 0 then zero else one,
   s.circuit, s.history,
   some (if r < abs2 s.state.1 then (0 : ℕ) else 1)⟩

/-- The Bloch angles (theta, phi) returned by `stateToBlochAngles`. -/
structure BlochAngles where
  theta : ℝ
  phi : ℝ

/-- JavaScript `Math.atan2(y, x)`, read exactly as the argument of the
complex number x + y i (`Complex.arg` has the same range (-π, π] and the
same quadrant conventions, and agrees with atan2 at the origin, both
being 0 there). -/
noncomputable def atan2 (y x : ℝ) : ℝ := Complex.arg ⟨x, y⟩

/-- The local helper of `stateToBlochAngles`:
`const arg = (z) => Math.atan2(z.im, z.re)`. -/
noncomputable def arg (z : Cplx) : ℝ := atan2 z.im z.re

/-- Source `stateToBlochAngles([a, b])`: `ra = Math.sqrt(abs2(a))`;
`theta = 2 * Math.acos(Math.min(1, Math.max(-1, ra)))`;
`phi = arg(b) - arg(a)`. (The source also computes `rb`, which it never
uses.) -/
noncomputable def stateToBlochAngles (v : Qstate) : BlochAngles :=
  ⟨2 * Real.arccos (min 1 (max (-1) (Real.sqrt (abs2 v.1)))),
   arg v.2 - arg v.1⟩

/-- The 3D point of `blochToXY(theta, phi)`. -/
structure BlochXY where
  x : ℝ
  y : ℝ
  z : ℝ

/-- Source `blochToXY(theta, phi)`: x = sin θ cos φ, y = sin θ sin φ,
z = cos θ. -/
noncomputable def blochToXY (theta phi : ℝ) : BlochXY :=
  ⟨Real.sin theta * Real.cos phi, Real.sin theta * Real.sin phi,
   Real.cos theta⟩

/-- Source `clearCircuit()`: empty circuit and history, basis-0 state, no
measurement. -/
def clearCircuit (_s : Session) : Session := ⟨zero, [], [], none⟩

/-- The member names every plain JavaScript object literal inherits from
`Object.prototype` (ECMA-262): property access on `GATES` for one of
these names finds the inherited member — a function or object, hence
truthy — rather than undefined. -/
def objectProtoMembers : List String :=
  ["constructor", "hasOwnProperty", "isPrototypeOf", "propertyIsEnumerable",
   "toLocaleString", "toString", "valueOf", "__proto__",
   "__defineGetter__", "__defineSetter__", "__lookupGetter__",
   "__lookupSetter__"]

/-- The three possible results of the JavaScript property access
`GATES[gname]`: an own property (one of the six gate entries), a truthy
member inherited from `Object.prototype`, or undefined. -/
inductive JsLookup where
  | gate (g : Gate)
  | inherited
  | undef

/-- JavaScript semantics of the property access `GATES[gname]` (ECMA-262
OrdinaryGet): the own properties are the six gate entries; failing those,
the lookup walks the prototype chain of the object literal and finds the
inherited members of `Object.prototype`; only otherwise is the result
undefined. -/
noncomputable def GATES_access (g : String) : JsLookup :=
  match GATES g with
  | some gate => JsLookup.gate gate
  | none =>
      if objectProtoMembers.contains g then JsLookup.inherited
      else JsLookup.undef

/-- Source `applyGateName(gname, st)` under full JavaScript lookup
semantics, with a thrown exception modelled as `none`: when the lookup is
undefined the falsy guard `if(!gate) return st` returns the state
unchanged; when it is a gate entry the matrix is applied and the result
normalized; when it is an inherited `Object.prototype` member the guard
passes (the member is truthy), `gate.matrix` is undefined, and `matMul`
throws a TypeError reading `m[0][0]` of undefined. -/
noncomputable def applyGateNameJs (gname : String) (st : Qstate) :
    Option Qstate :=
  match GATES_access gname with
  | JsLookup.gate gate => some (norm (matMul gate.matrix st))
  | JsLookup.inherited => none
  | JsLookup.undef => some st

/-! ## Basic lemmas about the arithmetic helpers -/

lemma abs2_nonneg (a : Cplx) : 0 ≤ abs2 a :=
  add_nonneg (mul_self_nonneg _) (mul_self_nonneg _)

lemma normSq_nonneg (v : Qstate) : 0 ≤ normSq v :=
  add_nonneg (abs2_nonneg _) (abs2_nonneg _)

lemma abs2_scale (a : Cplx) (k : ℝ) : abs2 (scale a k) = abs2 a * (k * k) := by
  simp only [abs2, scale, C]
  ring

lemma abs2_mul (a b : Cplx) : abs2 (mul a b) = abs2 a * abs2 b := by
  simp only [abs2, mul, C]
  ring

lemma scale_one (a : Cplx) : scale a 1 = a := by
  simp only [scale, C, mul_one]

lemma norm_of_normSq_one {v : Qstate} (h : normSq v = 1) : norm v = v := by
  have hs : Real.sqrt (abs2 v.1 + abs2 v.2) = 1 := by
    rw [show abs2 v.1 + abs2 v.2 = 1 from h, Real.sqrt_one]
  simp only [norm, hs, div_one, scale_one]

lemma normSq_norm {v : Qstate} (h : normSq v ≠ 0) : normSq (norm v) = 1 := by
  have hpos : 0 < normSq v := lt_of_le_of_ne (normSq_nonneg v) (Ne.symm h)
  have hs : Real.sqrt (abs2 v.1 + abs2 v.2) * Real.sqrt (abs2 v.1 + abs2 v.2)
      = abs2 v.1 + abs2 v.2 :=
    Real.mul_self_sqrt (normSq_nonneg v)
  have hne : Real.sqrt (abs2 v.1 + abs2 v.2) ≠ 0 := by
    intro h0
    rw [h0, mul_zero] at hs
    exact h hs.symm
  simp only [norm, normSq, abs2_scale] at *
  field_simp

/-! ## Per-gate computations of the matrix-vector product -/

lemma matMul_I (v : Qstate) : matMul gateI.matrix v = v := by
  obtain ⟨⟨ar, ai⟩, ⟨br, bi⟩⟩ := v
  simp only [matMul, gateI, add, mul, C, Prod.mk.injEq, Cplx.mk.injEq]
  refine ⟨⟨by ring, by ring⟩, by ring, by ring⟩

lemma matMul_X (v : Qstate) : matMul gateX.matrix v = (v.2, v.1) := by
  obtain ⟨⟨ar, ai⟩, ⟨br, bi⟩⟩ := v
  simp only [matMul, gateX, add, mul, C, Prod.mk.injEq, Cplx.mk.injEq]
  refine ⟨⟨by ring, by ring⟩, by ring, by ring⟩

lemma matMul_Z (v : Qstate) :
    matMul gateZ.matrix v = (v.1, C (-v.2.re) (-v.2.im)) := by
  obtain ⟨⟨ar, ai⟩, ⟨br, bi⟩⟩ := v
  simp only [matMul, gateZ, add, mul, C, Prod.mk.injEq, Cplx.mk.injEq]
  refine ⟨⟨by ring, by ring⟩, by ring, by ring⟩

lemma matMul_S (v : Qstate) :
    matMul gateS.matrix v = (v.1, C (-v.2.im) v.2.re) := by
  obtain ⟨⟨ar, ai⟩, ⟨br, bi⟩⟩ := v
  simp only [matMul, gateS, add, mul, C, Prod.mk.injEq, Cplx.mk.injEq]
  refine ⟨⟨by ring, by ring⟩, by ring, by ring⟩

lemma matMul_T (v : Qstate) :
    matMul gateT.matrix v
      = (v.1, mul (C (Real.cos (Real.pi / 4)) (Real.sin (Real.pi / 4))) v.2) := by
  obtain ⟨⟨ar, ai⟩, ⟨br, bi⟩⟩ := v
  simp only [matMul, gateT, add, mul, C, Prod.mk.injEq, Cplx.mk.injEq]
  refine ⟨⟨by ring, by ring⟩, by ring, by ring⟩

lemma matMul_H (v : Qstate) :
    matMul gateH.matrix v
      = (scale v.1 (1 / Real.sqrt 2), scale v.1 (1 / Real.sqrt 2)) := by
  obtain ⟨⟨ar, ai⟩, ⟨br, bi⟩⟩ := v
  simp only [matMul, gateH, add, mul, scale, C, Prod.mk.injEq, Cplx.mk.injEq]
  refine ⟨⟨by ring, by ring⟩, by ring, by ring⟩

lemma sqrt_two_mul_self : Real.sqrt 2 * Real.sqrt 2 = 2 :=
  Real.mul_self_sqrt (by norm_num)

lemma sqrt_two_ne_zero : Real.sqrt 2 ≠ 0 := by
  intro h0
  have := sqrt_two_mul_self
  rw [h0, mul_zero] at this
  norm_num at this

lemma normSq_matMul_I (v : Qstate) :
    normSq (matMul gateI.matrix v) = normSq v := by
  rw [matMul_I]

lemma normSq_matMul_X (v : Qstate) :
    normSq (matMul gateX.matrix v) = normSq v := by
  rw [matMul_X]
  simp only [normSq]
  ring

lemma normSq_matMul_Z (v : Qstate) :
    normSq (matMul gateZ.matrix v) = normSq v := by
  rw [matMul_Z]
  simp only [normSq, abs2, C]
  ring

lemma normSq_matMul_S (v : Qstate) :
    normSq (matMul gateS.matrix v) = normSq v := by
  rw [matMul_S]
  simp only [normSq, abs2, C]
  ring

lemma abs2_Tphase :
    abs2 (C (Real.cos (Real.pi / 4)) (Real.sin (Real.pi / 4))) = 1 := by
  simp only [abs2, C]
  have := Real.sin_sq_add_cos_sq (Real.pi / 4)
  nlinarith [this]

lemma normSq_matMul_T (v : Qstate) :
    normSq (matMul gateT.matrix v) = normSq v := by
  rw [matMul_T]
  simp only [normSq, abs2_mul, abs2_Tphase, one_mul]

lemma normSq_matMul_H (v : Qstate) :
    normSq (matMul gateH.matrix v) = abs2 v.1 := by
  rw [matMul_H]
  simp only [normSq, abs2_scale]
  have h2 : (1 / Real.sqrt 2) * (1 / Real.sqrt 2) = 1 / 2 := by
    rw [div_mul_div_comm, one_mul, sqrt_two_mul_self]
  rw [h2]
  ring

/-! ## Evaluating applyGateName on named gates and concrete states -/

lemma applyGateName_eq {g : String} {gate : Gate} (hg : GATES g = some gate)
    (st : Qstate) : applyGateName g st = norm (matMul gate.matrix st) := by
  simp only [applyGateName, hg]

lemma GATES_I : GATES "I" = some gateI := rfl

lemma GATES_X : GATES "X" = some gateX := rfl

lemma GATES_Z : GATES "Z" = some gateZ := rfl

lemma GATES_H : GATES "H" = some gateH := rfl

lemma normSq_zero_state : normSq zero = 1 := by
  simp [normSq, abs2, zero, C]

lemma normSq_one_state : normSq one = 1 := by
  simp [normSq, abs2, one, C]

lemma applyI_of_unit {st : Qstate} (h : normSq st = 1) :
    applyGateName "I" st = st := by
  rw [applyGateName_eq GATES_I, matMul_I, norm_of_normSq_one h]

lemma applyX_of_unit {st : Qstate} (h : normSq st = 1) :
    applyGateName "X" st = (st.2, st.1) := by
  rw [applyGateName_eq GATES_X, matMul_X]
  exact norm_of_normSq_one (by rw [show normSq (st.2, st.1) = normSq st by
    simp only [normSq]; ring, h])

lemma applyZ_of_unit {st : Qstate} (h : normSq st = 1) :
    applyGateName "Z" st = (st.1, C (-st.2.re) (-st.2.im)) := by
  rw [applyGateName_eq GATES_Z, matMul_Z]
  refine norm_of_normSq_one ?_
  rw [show normSq (st.1, C (-st.2.re) (-st.2.im)) = normSq st by
    simp only [normSq, abs2, C]; ring, h]

/-! ## stepCircuit: history entries are prefix folds, final state is the
full fold -/

lemma stepCircuitAux_length (c : List String) (st : Qstate) :
    (stepCircuitAux st c).length = c.length := by
  induction c generalizing st with
  | nil => rfl
  | cons g gs ih => simp [stepCircuitAux, ih]

lemma stepCircuitAux_getD (c : List String) (st : Qstate) (i : ℕ)
    (h : i < c.length) :
    (stepCircuitAux st c).getD i ("", zero)
      = (c.getD i "",
         (c.take (i + 1)).foldl (fun s g => applyGateName g s) st) := by
  induction c generalizing st i with
  | nil => simp at h
  | cons g gs ih =>
    cases i with
    | zero =>
      simp [stepCircuitAux, List.take_succ_cons, List.take_zero]
    | succ n =>
      have hn : n < gs.length := by
        simpa using h
      simp only [stepCircuitAux, List.getD_cons_succ, List.take_succ_cons,
        List.foldl_cons]
      exact ih (applyGateName g st) n hn

lemma stepCircuitAux_last (c : List String) (st : Qstate) :
    (match (stepCircuitAux st c).getLast? with
     | some e => e.2
     | none => st) = c.foldl (fun s g => applyGateName g s) st := by
  induction c generalizing st with
  | nil => rfl
  | cons g gs ih =>
    cases gs with
    | nil => rfl
    | cons g2 gs2 =>
      simp only [stepCircuitAux, List.getLast?_cons_cons, List.foldl_cons]
      exact ih (applyGateName g st)

lemma stepCircuit_fst (c : List String) :
    (stepCircuit c).1 = stepCircuitAux zero c := by
  unfold stepCircuit
  cases (stepCircuitAux zero c).getLast? <;> rfl

lemma stepCircuit_snd (c : List String) :
    (stepCircuit c).2 = c.foldl (fun s g => applyGateName g s) zero := by
  have h := stepCircuitAux_last c zero
  unfold stepCircuit
  cases hl : (stepCircuitAux zero c).getLast? with
  | none => rw [hl] at h; exact h
  | some e => rw [hl] at h; exact h

/-! ## runTo is the fold over the clipped prefix of the circuit -/

lemma runTo_eq_foldl_take (c : List String) (index : ℕ) (st : Qstate) :
    runTo c index st
      = (c.take (index + 1)).foldl (fun s g => applyGateName g s) st := by
  induction c generalizing index st with
  | nil => simp [runTo]
  | cons g gs ih =>
    cases index with
    | zero => simp [runTo]
    | succ n =>
      simp only [runTo, List.take_succ_cons, List.foldl_cons]
      exact ih n (applyGateName g st)

/-! ## Concrete Hadamard computations -/

lemma one_div_sqrt_two_mul_self :
    (1 / Real.sqrt 2) * (1 / Real.sqrt 2) = 1 / 2 := by
  rw [div_mul_div_comm, one_mul, sqrt_two_mul_self]

lemma applyH_zero :
    applyGateName "H" zero
      = (C (1 / Real.sqrt 2) 0, C (1 / Real.sqrt 2) 0) := by
  rw [applyGateName_eq GATES_H, matMul_H]
  have hz : scale zero.1 (1 / Real.sqrt 2) = C (1 / Real.sqrt 2) 0 := by
    simp [zero, scale, C]
  rw [hz]
  refine norm_of_normSq_one ?_
  simp only [normSq, abs2, C]
  rw [one_div_sqrt_two_mul_self]
  norm_num

lemma applyH_hplus_snd_re_pos :
    0 < (applyGateName "H"
          (C (1 / Real.sqrt 2) 0, C (1 / Real.sqrt 2) 0)).2.re := by
  rw [applyGateName_eq GATES_H, matMul_H]
  have hm : scale (C (1 / Real.sqrt 2) 0, C (1 / Real.sqrt 2) 0).1
      (1 / Real.sqrt 2) = C (1 / 2) 0 := by
    simp only [scale, C, Cplx.mk.injEq]
    exact ⟨one_div_sqrt_two_mul_self, by ring⟩
  rw [hm]
  simp only [norm, abs2, scale, C]
  norm_num

/-! ## Claim theorems -/

/-- C1 (amended): for every state vector with squared-magnitude sum 1 and
every gate name in the gate table, provided the gate is not `H` applied to
a state whose first amplitude has zero squared magnitude, the state
returned by applyGateName again has squared-magnitude sum exactly 1. (The
excluded case is forced by the defective Hadamard entry: its right column
is zero, so `H` sends a state with zero first amplitude to the zero
vector, whose normalization is not unit-norm.) -/
theorem applyGateName_preserves_unit_norm (st : Qstate) (h : normSq st = 1)
    (g : String) (hg : (GATES g).isSome = true)
    (hH : g = "H" → abs2 st.1 ≠ 0) :
    normSq (applyGateName g st) = 1 := by
  by_cases hI : g = "I"
  · subst hI
    rw [applyGateName_eq GATES_I]
    exact normSq_norm (by rw [normSq_matMul_I, h]; norm_num)
  by_cases hX : g = "X"
  · subst hX
    rw [applyGateName_eq GATES_X]
    exact normSq_norm (by rw [normSq_matMul_X, h]; norm_num)
  by_cases hZ : g = "Z"
  · subst hZ
    rw [applyGateName_eq GATES_Z]
    exact normSq_norm (by rw [normSq_matMul_Z, h]; norm_num)
  by_cases hH2 : g = "H"
  · subst hH2
    rw [applyGateName_eq GATES_H]
    exact normSq_norm (by rw [normSq_matMul_H]; exact hH rfl)
  by_cases hS : g = "S"
  · subst hS
    rw [applyGateName_eq (show GATES "S" = some gateS from rfl)]
    exact normSq_norm (by rw [normSq_matMul_S, h]; norm_num)
  by_cases hT : g = "T"
  · subst hT
    rw [applyGateName_eq (show GATES "T" = some gateT from rfl)]
    exact normSq_norm (by rw [normSq_matMul_T, h]; norm_num)
  · exfalso
    have hnone : GATES g = none := by
      unfold GATES
      rw [if_neg hI, if_neg hX, if_neg hZ, if_neg hH2, if_neg hS, if_neg hT]
    rw [hnone] at hg
    simp at hg

/-- C1 witness: the Pauli-X gate applied to the basis-0 state yields a
unit-norm state. -/
theorem applyGateName_preserves_unit_norm_witness :
    normSq (applyGateName "X" zero) = 1 :=
  applyGateName_preserves_unit_norm zero (by simp [normSq, abs2, zero, C])
    "X" rfl (fun hx => absurd hx (by decide))

/-- C1 counterexample: basis state 1 is unit-norm and "H" is in the gate
table, yet applying "H" to it does not return a unit-norm state (the
matrix-vector product is the zero vector; its "normalization" has
squared-magnitude sum 0 here — in JavaScript the components are NaN — in
either reading not 1). -/
theorem applyGateName_H_on_basis_one_not_unit :
    normSq one = 1 ∧ (GATES "H").isSome = true ∧
    normSq (applyGateName "H" one) ≠ 1 := by
  refine ⟨normSq_one_state, rfl, ?_⟩
  rw [applyGateName_eq GATES_H, matMul_H]
  have hz : scale one.1 (1 / Real.sqrt 2) = C 0 0 := by
    simp [one, scale, C]
  rw [hz]
  simp [norm, normSq, abs2, scale, C]

/-- C2 (amended): for every unit-norm state and every gate of the table,
provided the gate is not `H` applied to a state whose first amplitude has
zero squared magnitude, the matrix-vector product computed inside
applyGateName has nonzero squared-magnitude sum, so the normalization
does not divide by zero. (The proviso is forced by the defective Hadamard
entry, which sends such states to the zero vector.) -/
theorem matMul_gate_output_nonzero (st : Qstate) (h : normSq st = 1)
    (g : String) (gate : Gate) (hg : GATES g = some gate)
    (hH : g = "H" → abs2 st.1 ≠ 0) :
    normSq (matMul gate.matrix st) ≠ 0 := by
  by_cases hI : g = "I"
  · subst hI
    cases Option.some.inj (GATES_I.symm.trans hg)
    rw [normSq_matMul_I, h]; norm_num
  by_cases hX : g = "X"
  · subst hX
    cases Option.some.inj (GATES_X.symm.trans hg)
    rw [normSq_matMul_X, h]; norm_num
  by_cases hZ : g = "Z"
  · subst hZ
    cases Option.some.inj (GATES_Z.symm.trans hg)
    rw [normSq_matMul_Z, h]; norm_num
  by_cases hH2 : g = "H"
  · subst hH2
    cases Option.some.inj (GATES_H.symm.trans hg)
    rw [normSq_matMul_H]
    exact hH rfl
  by_cases hS : g = "S"
  · subst hS
    cases Option.some.inj ((show GATES "S" = some gateS from rfl).symm.trans hg)
    rw [normSq_matMul_S, h]; norm_num
  by_cases hT : g = "T"
  · subst hT
    cases Option.some.inj ((show GATES "T" = some gateT from rfl).symm.trans hg)
    rw [normSq_matMul_T, h]; norm_num
  · exfalso
    have hnone : GATES g = none := by
      unfold GATES
      rw [if_neg hI, if_neg hX, if_neg hZ, if_neg hH2, if_neg hS, if_neg hT]
    rw [hnone] at hg
    exact Option.noConfusion hg

/-- C2 witness: the Pauli-X matrix applied to basis state 0 has nonzero
squared-magnitude sum. -/
theorem matMul_gate_output_nonzero_witness :
    normSq (matMul gateX.matrix zero) ≠ 0 :=
  matMul_gate_output_nonzero zero (by simp [normSq, abs2, zero, C]) "X"
    gateX rfl (fun hx => absurd hx (by decide))

/-- C2 counterexample: basis state 1 is unit-norm and "H" maps to the
gateH entry of the table, yet the matrix-vector product of the H matrix
with basis state 1 has squared-magnitude sum 0 — it is the zero vector,
so the subsequent normalization divides by zero. -/
theorem matMul_H_on_basis_one_is_zero_vector :
    normSq one = 1 ∧ GATES "H" = some gateH ∧
    normSq (matMul gateH.matrix one) = 0 := by
  refine ⟨normSq_one_state, rfl, ?_⟩
  rw [normSq_matMul_H]
  simp [one, abs2, C]

/-- C3: running the one-gate circuit [H] from basis state 0 produces
amplitudes (1/√2, 1/√2), and running the two-gate circuit [H, H] from
basis state 0 does not return to basis state 0. -/
theorem circuit_H_and_HH_behavior :
    (stepCircuit ["H"]).2 = (C (1 / Real.sqrt 2) 0, C (1 / Real.sqrt 2) 0) ∧
    (stepCircuit ["H", "H"]).2 ≠ zero := by
  constructor
  · rw [stepCircuit_snd]
    simp only [List.foldl_cons, List.foldl_nil]
    exact applyH_zero
  · have h2 : (stepCircuit ["H", "H"]).2
        = applyGateName "H" (C (1 / Real.sqrt 2) 0, C (1 / Real.sqrt 2) 0) := by
      rw [stepCircuit_snd]
      simp only [List.foldl_cons, List.foldl_nil, applyH_zero]
    rw [h2]
    intro heq
    have hpos := applyH_hplus_snd_re_pos
    rw [heq] at hpos
    simp [zero, C] at hpos

/-- C4: for every unit-norm state and every gate g in {I, X, Z}, applying
g twice via applyGateName returns the original state exactly, and running
the circuit [X, X] from basis state 0 returns basis state 0. -/
theorem self_inverse_gates_and_XX_circuit (st : Qstate) (h : normSq st = 1)
    (g : String) (hg : g = "I" ∨ g = "X" ∨ g = "Z") :
    applyGateName g (applyGateName g st) = st ∧
    (stepCircuit ["X", "X"]).2 = zero := by
  constructor
  · rcases hg with hI | hX | hZ
    · subst hI
      rw [applyI_of_unit h, applyI_of_unit h]
    · subst hX
      rw [applyX_of_unit h]
      have h2 : normSq (st.2, st.1) = 1 := by
        simp only [normSq] at h ⊢
        linarith
      rw [applyX_of_unit h2]
    · subst hZ
      obtain ⟨⟨ar, ai⟩, ⟨br, bi⟩⟩ := st
      rw [applyZ_of_unit h]
      have h2 : normSq ((⟨ar, ai⟩ : Cplx),
          C (-(⟨br, bi⟩ : Cplx).re) (-(⟨br, bi⟩ : Cplx).im)) = 1 := by
        simp only [normSq, abs2, C] at h ⊢
        ring_nf
        ring_nf at h
        linarith
      rw [applyZ_of_unit h2]
      simp [C, Prod.mk.injEq, Cplx.mk.injEq]
  · rw [stepCircuit_snd]
    simp only [List.foldl_cons, List.foldl_nil]
    rw [applyX_of_unit normSq_zero_state]
    rw [show ((zero.2 : Cplx), (zero.1 : Cplx)) = one from rfl]
    rw [applyX_of_unit normSq_one_state]
    rfl

/-- C4 witness: applying X twice to basis state 0 returns basis state 0. -/
theorem self_inverse_gates_and_XX_circuit_witness :
    applyGateName "X" (applyGateName "X" zero) = zero :=
  (self_inverse_gates_and_XX_circuit zero (by simp [normSq, abs2, zero, C])
    "X" (Or.inr (Or.inl rfl))).1

/-- C5: for every circuit, stepCircuit rebuilds the history from scratch
with one entry per gate — the pair of the gate name and the state obtained
by folding applyGateName over the gates up to and including that one,
starting from basis state 0 — and sets the current state to the last
history entry's state, i.e. the fold over the whole circuit, which is
basis state 0 when the circuit is empty. -/
theorem stepCircuit_spec (c : List String) :
    (stepCircuit c).1.length = c.length ∧
    (∀ i, i < c.length →
      (stepCircuit c).1.getD i ("", zero)
        = (c.getD i "",
           (c.take (i + 1)).foldl (fun s g => applyGateName g s) zero)) ∧
    (stepCircuit c).2 = c.foldl (fun s g => applyGateName g s) zero := by
  refine ⟨?_, ?_, stepCircuit_snd c⟩
  · rw [stepCircuit_fst]
    exact stepCircuitAux_length c zero
  · intro i hi
    rw [stepCircuit_fst]
    exact stepCircuitAux_getD c zero i hi

/-- C5 witness: on the one-gate circuit [X], the final state is the fold
of applyGateName over the circuit from basis state 0, and the single
history entry pairs "X" with that state. -/
theorem stepCircuit_spec_witness :
    (stepCircuit ["X"]).1.getD 0 ("", zero)
      = ("X",
         ((["X"] : List String).take 1).foldl
           (fun s g => applyGateName g s) zero) :=
  (stepCircuit_spec ["X"]).2.1 0 (by decide)

/-- C6: measure computes the probability of outcome 0 as the squared
magnitude of the first amplitude, yields outcome 0 when the sample r is
below it and 1 otherwise, records the outcome, and collapses the state to
the corresponding basis vector; when the current state is basis state 0,
the outcome is 0 for every r in [0, 1). -/
theorem measure_spec (s : Session) (r : ℝ) :
    (measure s r).measurement
      = some (if r < abs2 s.state.1 then 0 else 1) ∧
    (measure s r).state = (if r < abs2 s.state.1 then zero else one) ∧
    (0 ≤ r → r < 1 → s.state = zero → (measure s r).measurement = some 0) := by
  refine ⟨rfl, ?_, ?_⟩
  · by_cases hr : r < abs2 s.state.1 <;> simp [measure, hr]
  · intro _h0 h1 hz
    have hp : abs2 s.state.1 = 1 := by
      rw [hz]
      simp [zero, abs2, C]
    simp [measure, hp, h1]

/-- C6 witness: measuring at sample 1/2 from a session in basis state 0
records outcome 0. -/
theorem measure_spec_witness :
    (measure ⟨zero, [], [], none⟩ (1 / 2)).measurement = some 0 :=
  (measure_spec ⟨zero, [], [], none⟩ (1 / 2)).2.2 one_half_pos.le
    one_half_lt_one rfl

/-- C7: the claim that applyGateName is a no-op, without crashing, for
every gate name not in the gate table is violated by the code at the name
"toString": that name is not among the six table keys, yet the JavaScript
lookup GATES["toString"] finds the truthy inherited Object.prototype
member, the falsy guard does not fire, and matMul throws a TypeError
(modelled as `none`) instead of returning the state unchanged. The
graceful no-op does occur for names the lookup resolves to undefined,
such as "Q". -/
theorem applyGateName_toString_crashes :
    GATES "toString" = none ∧
    applyGateNameJs "toString" zero = none ∧
    applyGateNameJs "Q" zero = some zero :=
  ⟨rfl, rfl, rfl⟩

/-- C8: for every normalized state (a, b), stateToBlochAngles returns
theta = 2 * arccos of |a| clamped to [-1, 1] and
phi = atan2(im b, re b) - atan2(im a, re a); consequently basis state 0
yields theta = 0 and basis state 1 yields theta = π. -/
theorem stateToBlochAngles_spec (a b : Cplx) (h : abs2 a + abs2 b = 1) :
    (stateToBlochAngles (a, b)).theta
      = 2 * Real.arccos (min 1 (max (-1) (Real.sqrt (abs2 a)))) ∧
    (stateToBlochAngles (a, b)).phi = atan2 b.im b.re - atan2 a.im a.re ∧
    (stateToBlochAngles zero).theta = 0 ∧
    (stateToBlochAngles one).theta = Real.pi := by
  refine ⟨rfl, rfl, ?_, ?_⟩
  · have h1 : abs2 zero.1 = 1 := by
      simp [zero, abs2, C]
    simp only [stateToBlochAngles, h1, Real.sqrt_one]
    rw [show max (-1 : ℝ) 1 = 1 from by norm_num,
      show min (1 : ℝ) 1 = 1 from by norm_num, Real.arccos_one, mul_zero]
  · have h1 : abs2 one.1 = 0 := by
      simp [one, abs2, C]
    simp only [stateToBlochAngles, h1, Real.sqrt_zero]
    rw [show max (-1 : ℝ) 0 = 0 from by norm_num,
      show min (1 : ℝ) 0 = 0 from by norm_num, Real.arccos_zero]
    ring

/-- C8 witness: instantiated at the normalized pair (1, 0), basis state 0
projects to theta = 0. -/
theorem stateToBlochAngles_spec_witness :
    (stateToBlochAngles zero).theta = 0 :=
  (stateToBlochAngles_spec (C 1 0) (C 0 0) (by simp [abs2, C])).2.2.1

/-- C9: for every session and every index below the circuit length,
runStep sets the current state to the fold of applyGateName over gates 0
through index (inclusive) starting from basis state 0, and leaves the
history, the circuit, and the measurement outcome unchanged. -/
theorem runStep_spec (s : Session) (index : ℕ)
    (h : index < s.circuit.length) :
    (runStep s index).state
      = (s.circuit.take (index + 1)).foldl (fun st g => applyGateName g st)
          zero ∧
    (runStep s index).history = s.history ∧
    (runStep s index).circuit = s.circuit ∧
    (runStep s index).measurement = s.measurement :=
  ⟨runTo_eq_foldl_take s.circuit index zero, rfl, rfl, rfl⟩

/-- C9 witness: on a session with circuit [X], runStep 0 computes the
one-gate fold and leaves the (empty) history unchanged. -/
theorem runStep_spec_witness :
    (runStep ⟨zero, ["X"], [], none⟩ 0).state
      = ((["X"] : List String).take 1).foldl
          (fun st g => applyGateName g st) zero ∧
    (runStep ⟨zero, ["X"], [], none⟩ 0).history = [] :=
  ⟨(runStep_spec ⟨zero, ["X"], [], none⟩ 0 (by decide)).1,
   (runStep_spec ⟨zero, ["X"], [], none⟩ 0 (by decide)).2.1⟩

/-- C10: runStep is total, and because its loop stops at the circuit
length as well as at the index, any index at or beyond circuit length - 1
replays the entire circuit from basis state 0, giving the same final
state as running the full circuit with stepCircuit. -/
theorem runStep_large_index_runs_full_circuit (s : Session) (index : ℕ)
    (h : s.circuit.length - 1 ≤ index) :
    (runStep s index).state = (stepCircuit s.circuit).2 := by
  have hlen : s.circuit.length ≤ index + 1 := by omega
  show runTo s.circuit index zero = _
  rw [runTo_eq_foldl_take, List.take_of_length_le hlen, stepCircuit_snd]

/-- C10 witness: on a one-gate circuit, runStep with the out-of-range
index 5 produces the full-circuit final state. -/
theorem runStep_large_index_runs_full_circuit_witness :
    (runStep ⟨zero, ["X"], [], none⟩ 5).state = (stepCircuit ["X"]).2 :=
  runStep_large_index_runs_full_circuit ⟨zero, ["X"], [], none⟩ 5 (by decide)

end QuantumTutor
